import Mathlib

/-!
Shallow embedding of the zero-copy HTTP/1.x parser from `src/lib.rs`
(functions `parse_response` and `parse_request`), together with proofs of
the specification's claims about it.

Modelling conventions:
* a byte buffer `&[u8]` is a `List Nat` (delimiters: space = 32, `\n` = 10,
  `\r` = 13, `:` = 58);
* a Rust `panic!` (both the explicit `panic!("invalid state")` and the
  implicit out-of-bounds panic of slice indexing) is modelled as an
  `Except.error` value, tagged by which kind of abort occurred;
* Rust slicing `&data[a..=b]` / `&data[a..]` is modelled by `sliceCC` /
  `sliceFrom`, which return `none` exactly when the Rust expression panics;
* the `HashMap<&[u8], &[u8]>` built by repeated `insert` is modelled as an
  association list with unique keys, built by folding `insertPair`
  (insert replaces the entry of an existing key) over the scanned
  key/value pairs in loop order.
-/

/-- Kind of abort a parse can perform: the explicit `panic!("invalid state")`
in the header-terminator state, or the implicit panic of an out-of-range
slice index. -/
inductive PErr where
  | invalidState
  | outOfBounds
  deriving DecidableEq, Repr

/-- Rust `&data[a..=b]`: defined (as the bytes at positions `a..=b`) iff
`a ≤ b + 1` and `b + 1 ≤ data.length`; otherwise the Rust code panics and we
return `none`. -/
def sliceCC (data : List Nat) (a b : Nat) : Option (List Nat) :=
  if a ≤ b + 1 ∧ b + 1 ≤ data.length then some ((data.drop a).take (b + 1 - a)) else none

/-- Rust `&data[a..]`: defined iff `a ≤ data.length`. -/
def sliceFrom (data : List Nat) (a : Nat) : Option (List Nat) :=
  if a ≤ data.length then some (data.drop a) else none

/-- Mirror of the Rust enum `RequestParseState`. -/
inductive RequestParseState where
  | method
  | url
  | httpVersion
  | headers (is_end : Bool)
  | body
  deriving DecidableEq, Repr

/-- The mutable locals of `parse_request`'s scan loop: the current state and
the recorded last-content-byte indices (`method`, `url`, `http_version`,
`header`) plus the pushed key/value index vectors. -/
structure RequestAcc where
  state : RequestParseState
  method : Nat
  url : Nat
  http_version : Nat
  header : Nat
  headers_key : List Nat
  headers_value : List Nat
  deriving DecidableEq, Repr

/-- One iteration of `parse_request`'s `for (i, current) in data.iter().enumerate()`
loop body (everything except the `Body => break` arm, which is handled by the
driver `scanRequestAux`). -/
def requestStep (i : Nat) (c : Nat) (s : RequestAcc) : Except PErr RequestAcc :=
  match s.state with
  | .method =>
    if c = 32 then .ok { s with state := .url } else .ok { s with method := i }
  | .url =>
    if c = 32 then .ok { s with state := .httpVersion } else .ok { s with url := i }
  | .httpVersion =>
    if c = 10 then .ok { s with state := .headers false } else .ok { s with http_version := i }
  | .headers true =>
    if c = 10 then .ok { s with state := .body } else .error .invalidState
  | .headers false =>
    if c = 13 then .ok { s with state := .headers true }
    else if c = 10 then .ok { s with headers_value := s.headers_value ++ [s.header], header := 0 }
    else if c = 58 then .ok { s with headers_key := s.headers_key ++ [s.header], header := 0 }
    else .ok { s with header := i }
  | .body => .ok s

/-- The scan loop of `parse_request`: runs `requestStep` on each byte in
order, breaking out of the loop as soon as the state is `Body`. -/
def scanRequestAux : Nat → List Nat → RequestAcc → Except PErr RequestAcc
  | _, [], s => .ok s
  | i, c :: rest, s =>
    if s.state = .body then .ok s
    else
      match requestStep i c s with
      | .error e => .error e
      | .ok s2 => scanRequestAux (i + 1) rest s2

/-- Initial accumulator of `parse_request` (all index variables start at 0). -/
def reqAcc0 : RequestAcc := ⟨.method, 0, 0, 0, 0, [], []⟩

/-- Filter out of an association list every pair whose key equals `k`
(content equality of byte slices, as Rust's `HashMap<&[u8], _>` compares
keys). -/
def eraseKey (l : List (List Nat × List Nat)) (k : List Nat) : List (List Nat × List Nat) :=
  l.filter (fun q => !(decide (q.1 = k)))

/-- Model of `HashMap::insert`: replace any existing entry of the key, add
the new pair. -/
def insertPair (l : List (List Nat × List Nat)) (p : List Nat × List Nat) :
    List (List Nat × List Nat) :=
  eraseKey l p.1 ++ [p]

/-- Model of the `HashMap` built by inserting the scanned `(key_slice,
value_slice)` pairs in loop order into an initially empty map. -/
def mkMap (pairs : List (List Nat × List Nat)) : List (List Nat × List Nat) :=
  pairs.foldl insertPair []

/-- Value of the last pair of `l` whose key is `k`, if any (the value a
`HashMap` holds after inserting the pairs of `l` in order). -/
def findLast (l : List (List Nat × List Nat)) (k : List Nat) : Option (List Nat) :=
  match l with
  | [] => none
  | p :: rest =>
    match findLast rest k with
    | some w => some w
    | none => if p.1 = k then some p.2 else none

/-- The header-extraction loop shared verbatim by `parse_request` and
`parse_response`: walk the zipped `(key, value)` index pairs, carving
`key_slice = &data[last..=key]` and `value_slice = &data[key + 2..=value]`,
threading `last = value + 2`.  Returns the pairs in loop order together
with the final `last`. -/
def buildHeaders (data : List Nat) : Nat → List (Nat × Nat) →
    Except PErr (List (List Nat × List Nat) × Nat)
  | last, [] => .ok ([], last)
  | last, (key, value) :: rest =>
    match sliceCC data last key with
    | none => .error .outOfBounds
    | some key_slice =>
      match sliceCC data (key + 2) value with
      | none => .error .outOfBounds
      | some value_slice =>
        match buildHeaders data (value + 2) rest with
        | .error e => .error e
        | .ok (pairs, l) => .ok ((key_slice, value_slice) :: pairs, l)

/-- Mirror of the Rust struct `Request<'a>`, with the `HashMap` modelled as
an association list with unique keys (see `mkMap`). -/
structure Request where
  method : List Nat
  url : List Nat
  http_version : List Nat
  headers : List (List Nat × List Nat)
  body : List Nat
  deriving DecidableEq, Repr

/-- Embedding of `parse_request`: scan the buffer, then extract
`method_slice = &data[..=method]`, `url_slice = &data[method + 2..=url]`,
`http_version_slice = &data[url + 2..=http_version]`, the header slices, and
`body_slice = &data[last + 2..]`.  An `error` value models a Rust panic. -/
def parse_request (data : List Nat) : Except PErr Request :=
  match scanRequestAux 0 data reqAcc0 with
  | .error e => .error e
  | .ok s =>
    match sliceCC data 0 s.method with
    | none => .error .outOfBounds
    | some method_slice =>
      match sliceCC data (s.method + 2) s.url with
      | none => .error .outOfBounds
      | some url_slice =>
        match sliceCC data (s.url + 2) s.http_version with
        | none => .error .outOfBounds
        | some http_version_slice =>
          match buildHeaders data (s.http_version + 2) (s.headers_key.zip s.headers_value) with
          | .error e => .error e
          | .ok (pairs, last) =>
            match sliceFrom data (last + 2) with
            | none => .error .outOfBounds
            | some body_slice =>
              .ok ⟨method_slice, url_slice, http_version_slice, mkMap pairs, body_slice⟩

/-- Mirror of the Rust enum `ResponseParseState`. -/
inductive ResponseParseState where
  | httpVersion
  | statusCode
  | status
  | headers (is_end : Bool)
  | body
  deriving DecidableEq, Repr

/-- The mutable locals of `parse_response`'s scan loop. -/
structure ResponseAcc where
  state : ResponseParseState
  http_version : Nat
  status_code : Nat
  status : Nat
  header : Nat
  headers_key : List Nat
  headers_value : List Nat
  deriving DecidableEq, Repr

/-- One iteration of `parse_response`'s scan loop body. -/
def responseStep (i : Nat) (c : Nat) (s : ResponseAcc) : Except PErr ResponseAcc :=
  match s.state with
  | .httpVersion =>
    if c = 32 then .ok { s with state := .statusCode } else .ok { s with http_version := i }
  | .statusCode =>
    if c = 32 then .ok { s with state := .status } else .ok { s with status_code := i }
  | .status =>
    if c = 10 then .ok { s with state := .headers false } else .ok { s with status := i }
  | .headers true =>
    if c = 10 then .ok { s with state := .body } else .error .invalidState
  | .headers false =>
    if c = 13 then .ok { s with state := .headers true }
    else if c = 10 then .ok { s with headers_value := s.headers_value ++ [s.header], header := 0 }
    else if c = 58 then .ok { s with headers_key := s.headers_key ++ [s.header], header := 0 }
    else .ok { s with header := i }
  | .body => .ok s

/-- The scan loop of `parse_response`. -/
def scanResponseAux : Nat → List Nat → ResponseAcc → Except PErr ResponseAcc
  | _, [], s => .ok s
  | i, c :: rest, s =>
    if s.state = .body then .ok s
    else
      match responseStep i c s with
      | .error e => .error e
      | .ok s2 => scanResponseAux (i + 1) rest s2

/-- Initial accumulator of `parse_response`. -/
def respAcc0 : ResponseAcc := ⟨.httpVersion, 0, 0, 0, 0, [], []⟩

/-- Mirror of the Rust struct `Response<'a>`. -/
structure Response where
  status : List Nat
  status_code : List Nat
  http_version : List Nat
  headers : List (List Nat × List Nat)
  body : List Nat
  deriving DecidableEq, Repr

/-- Embedding of `parse_response`: scan, then extract
`http_version_slice = &data[..=http_version]`,
`status_code_slice = &data[http_version + 2..=status_code]`,
`status_slice = &data[status_code + 2..=status]`, the header slices, and
`body_slice = &data[last + 2..]`. -/
def parse_response (data : List Nat) : Except PErr Response :=
  match scanResponseAux 0 data respAcc0 with
  | .error e => .error e
  | .ok s =>
    match sliceCC data 0 s.http_version with
    | none => .error .outOfBounds
    | some http_version_slice =>
      match sliceCC data (s.http_version + 2) s.status_code with
      | none => .error .outOfBounds
      | some status_code_slice =>
        match sliceCC data (s.status_code + 2) s.status with
        | none => .error .outOfBounds
        | some status_slice =>
          match buildHeaders data (s.status + 2) (s.headers_key.zip s.headers_value) with
          | .error e => .error e
          | .ok (pairs, last) =>
            match sliceFrom data (last + 2) with
            | none => .error .outOfBounds
            | some body_slice =>
              .ok ⟨status_slice, status_code_slice, http_version_slice, mkMap pairs, body_slice⟩

/-- Byte list of an ASCII string literal. -/
def strBytes (s : String) : List Nat := s.toList.map Char.toNat

deriving instance DecidableEq for Except

/-- A start-line field is well-formed when it is nonempty and contains no
space, line-feed or carriage-return byte. -/
def cleanStart (l : List Nat) : Prop :=
  l ≠ [] ∧ ∀ c ∈ l, c ≠ 32 ∧ c ≠ 10 ∧ c ≠ 13

instance (l : List Nat) : Decidable (cleanStart l) := by
  unfold cleanStart; infer_instance

/-- A header key or value is well-formed when it is nonempty and contains no
colon, line-feed or carriage-return byte (spaces are ordinary content). -/
def cleanHdr (l : List Nat) : Prop :=
  l ≠ [] ∧ ∀ c ∈ l, c ≠ 58 ∧ c ≠ 10 ∧ c ≠ 13

instance (l : List Nat) : Decidable (cleanHdr l) := by
  unfold cleanHdr; infer_instance

/-- Well-formedness of a message's decomposition into three start-line
fields and header key/value pairs, per the spec's input contract. -/
def wfMessage (f1 f2 f3 : List Nat) (hs : List (List Nat × List Nat)) : Prop :=
  cleanStart f1 ∧ cleanStart f2 ∧ cleanStart f3 ∧ ∀ p ∈ hs, cleanHdr p.1 ∧ cleanHdr p.2

instance (f1 f2 f3 : List Nat) (hs : List (List Nat × List Nat)) :
    Decidable (wfMessage f1 f2 f3 hs) := by
  unfold wfMessage; infer_instance

/-- Byte image of a header block: each line is `key ++ ":" ++ value ++ "\n"`. -/
def headerBytes : List (List Nat × List Nat) → List Nat
  | [] => []
  | (k, w) :: rest => k ++ (58 :: (w ++ (10 :: headerBytes rest)))

/-- A whole well-formed message buffer: a start line of three fields
separated by single spaces and ended by a bare line-feed, the header lines,
the `"\r\n"` blank line, then the body.  Both the request and the response
grammar have this same byte-level shape. -/
def buildMessage (f1 f2 f3 : List Nat) (hs : List (List Nat × List Nat)) (body : List Nat) :
    List Nat :=
  f1 ++ (32 :: (f2 ++ (32 :: (f3 ++ (10 :: (headerBytes hs ++ (13 :: (10 :: body))))))))

/-- The (key index, value index) pairs the scan loop records for a
well-formed header block that starts at buffer offset `o`: each entry is the
index of the last byte of the key and of the value of one header line. -/
def hdrIdx (o : Nat) : List (List Nat × List Nat) → List (Nat × Nat)
  | [] => []
  | (k, w) :: rest =>
    (o + k.length - 1, o + k.length + w.length) :: hdrIdx (o + k.length + w.length + 2) rest

/-- State correspondence between the response and the request automaton:
the two Rust state machines are byte-for-byte the same automaton up to the
renaming `HttpVersion/StatusCode/Status ↦ Method/Url/HttpVersion`. -/
def trState : ResponseParseState → RequestParseState
  | .httpVersion => .method
  | .statusCode => .url
  | .status => .httpVersion
  | .headers b => .headers b
  | .body => .body

/-- Accumulator correspondence induced by `trState` (the scanned-first,
scanned-second and scanned-third index variables line up). -/
def trAcc (s : ResponseAcc) : RequestAcc :=
  ⟨trState s.state, s.http_version, s.status_code, s.status, s.header,
   s.headers_key, s.headers_value⟩

/-- Field renaming under which a parsed response is the parsed request of
the same buffer: the first/second/third scanned slices become
`http_version`, `status_code` and `status` respectively. -/
def convResponse (r : Request) : Response :=
  ⟨r.http_version, r.url, r.method, r.headers, r.body⟩

/-- Flattening of a list of (content, following delimiter) segments. -/
def segsFlat : List (List Nat × List Nat) → List Nat
  | [] => []
  | (s, d) :: rest => s ++ (d ++ segsFlat rest)

/-- The (start index, length) range of each content segment when the
flattened segments sit at offset `o` of a buffer. -/
def segRanges (o : Nat) : List (List Nat × List Nat) → List (Nat × Nat)
  | [] => []
  | (s, d) :: rest => (o, s.length) :: segRanges (o + s.length + d.length) rest

/-- Two (start, length) index ranges cover disjoint byte positions. -/
def rangeDisj (p q : Nat × Nat) : Prop := p.1 + p.2 ≤ q.1 ∨ q.1 + q.2 ≤ p.1

/-- Content/delimiter segmentation of a header block. -/
def hdrSegs : List (List Nat × List Nat) → List (List Nat × List Nat)
  | [] => []
  | (k, w) :: rest => (k, [58]) :: ((w, [10]) :: hdrSegs rest)

/-- The scan-order segmentation of a parsed request: each returned slice of
the message head paired with the delimiter that follows it. -/
def reqSegs (r : Request) : List (List Nat × List Nat) :=
  (r.method, [32]) :: ((r.url, [32]) :: ((r.http_version, [10]) :: hdrSegs r.headers))

/-- The scan-order segmentation of a parsed response. -/
def respSegs (r : Response) : List (List Nat × List Nat) :=
  (r.http_version, [32]) :: ((r.status_code, [32]) :: ((r.status, [10]) :: hdrSegs r.headers))

/-- The ranges of all content slices of a message: the head segments, then
the body range two bytes past the head (skipping the `"\r\n"` blank line). -/
def msgRanges (segs : List (List Nat × List Nat)) (bodyLen : Nat) : List (Nat × Nat) :=
  segRanges 0 segs ++ [((segsFlat segs).length + 2, bodyLen)]

/-- Reading a (start, length) range out of a buffer. -/
def sliceAt (data : List Nat) (p : Nat × Nat) : List Nat := (data.drop p.1).take p.2

/-- The disjointness-and-reconstruction property of claim C1 for one parsed
message: the head slices (in scan order, as segmented with their following
delimiters) and the body occupy pairwise disjoint in-bounds ranges of the
buffer, reading those ranges gives back exactly the returned slices, and
re-concatenating the slices with their delimiter bytes (spaces, colons,
line feeds and the final `"\r\n"`) reproduces the buffer. -/
def disjointReconstruct (data : List Nat) (segs : List (List Nat × List Nat))
    (body : List Nat) : Prop :=
  (msgRanges segs body.length).Pairwise rangeDisj ∧
  (∀ p ∈ msgRanges segs body.length, p.1 + p.2 ≤ data.length) ∧
  (msgRanges segs body.length).map (sliceAt data) = segs.map Prod.fst ++ [body] ∧
  segsFlat segs ++ (13 :: (10 :: body)) = data

/-- Once the scan state is `Body`, the loop breaks: the remaining bytes are
not processed and the accumulator is returned unchanged. -/
theorem scanRequestAux_body (i : Nat) (l : List Nat) (s : RequestAcc)
    (h : s.state = .body) : scanRequestAux i l s = .ok s := by
  cases l with
  | nil => rfl
  | cons c rest => simp [scanRequestAux, h]

/-- Scanning a concatenation runs the scan of the first part and continues
with the second part from the resulting accumulator. -/
theorem scanRequestAux_append (l1 l2 : List Nat) : ∀ (i : Nat) (s : RequestAcc),
    scanRequestAux i (l1 ++ l2) s =
      match scanRequestAux i l1 s with
      | .error e => .error e
      | .ok s2 => scanRequestAux (i + l1.length) l2 s2 := by
  induction l1 with
  | nil =>
    intro i s
    simp [scanRequestAux]
  | cons c rest ih =>
    intro i s
    by_cases hb : s.state = .body
    · rw [scanRequestAux_body _ _ _ hb, scanRequestAux_body _ _ _ hb]
      exact (scanRequestAux_body _ _ _ hb).symm
    · cases hstep : requestStep i c s with
      | error e =>
        rw [List.cons_append]
        simp [scanRequestAux, hb, hstep]
      | ok s2 =>
        rw [List.cons_append]
        have hl : scanRequestAux i (c :: (rest ++ l2)) s = scanRequestAux (i + 1) (rest ++ l2) s2 := by
          simp [scanRequestAux, hb, hstep]
        have hr : scanRequestAux i (c :: rest) s = scanRequestAux (i + 1) rest s2 := by
          simp [scanRequestAux, hb, hstep]
        rw [hl, hr, ih]
        cases scanRequestAux (i + 1) rest s2 with
        | error e => rfl
        | ok s3 =>
          have harith : i + 1 + rest.length = i + (c :: rest).length := by
            simp only [List.length_cons]; omega
          rw [harith]

/-- In state `Method` a run of non-space bytes is recorded as content and the
following space moves the scan to state `Url`, two past the method's last
byte. -/
theorem scan_method_cont (c : Nat) (m : List Nat) (hc : c ≠ 32) (hm : ∀ x ∈ m, x ≠ 32) :
    ∀ (rest : List Nat) (i me ur hv hd : Nat) (ks vs : List Nat),
    scanRequestAux i ((c :: m) ++ (32 :: rest)) ⟨.method, me, ur, hv, hd, ks, vs⟩ =
      scanRequestAux (i + m.length + 2) rest ⟨.url, i + m.length, ur, hv, hd, ks, vs⟩ := by
  induction m generalizing c with
  | nil =>
    intro rest i me ur hv hd ks vs
    simp [scanRequestAux, requestStep, hc]
  | cons d rest2 ih =>
    intro rest i me ur hv hd ks vs
    have hd0 : d ≠ 32 := hm d (List.mem_cons_self d rest2)
    have hrest2 : ∀ x ∈ rest2, x ≠ 32 := fun x hx => hm x (List.mem_cons_of_mem d hx)
    have step1 : scanRequestAux i ((c :: (d :: rest2)) ++ (32 :: rest))
        ⟨.method, me, ur, hv, hd, ks, vs⟩ =
        scanRequestAux (i + 1) ((d :: rest2) ++ (32 :: rest)) ⟨.method, i, ur, hv, hd, ks, vs⟩ := by
      simp [scanRequestAux, requestStep, hc]
    rw [step1, ih d hd0 hrest2]
    have h1 : i + 1 + rest2.length + 2 = i + (d :: rest2).length + 2 := by
      simp only [List.length_cons]; omega
    have h2 : i + 1 + rest2.length = i + (d :: rest2).length := by
      simp only [List.length_cons]; omega
    rw [h1, h2]

/-- In state `Url` a run of non-space bytes is recorded as content and the
following space moves the scan to state `HttpVersion`. -/
theorem scan_url_cont (c : Nat) (m : List Nat) (hc : c ≠ 32) (hm : ∀ x ∈ m, x ≠ 32) :
    ∀ (rest : List Nat) (i me ur hv hd : Nat) (ks vs : List Nat),
    scanRequestAux i ((c :: m) ++ (32 :: rest)) ⟨.url, me, ur, hv, hd, ks, vs⟩ =
      scanRequestAux (i + m.length + 2) rest ⟨.httpVersion, me, i + m.length, hv, hd, ks, vs⟩ := by
  induction m generalizing c with
  | nil =>
    intro rest i me ur hv hd ks vs
    simp [scanRequestAux, requestStep, hc]
  | cons d rest2 ih =>
    intro rest i me ur hv hd ks vs
    have hd0 : d ≠ 32 := hm d (List.mem_cons_self d rest2)
    have hrest2 : ∀ x ∈ rest2, x ≠ 32 := fun x hx => hm x (List.mem_cons_of_mem d hx)
    have step1 : scanRequestAux i ((c :: (d :: rest2)) ++ (32 :: rest))
        ⟨.url, me, ur, hv, hd, ks, vs⟩ =
        scanRequestAux (i + 1) ((d :: rest2) ++ (32 :: rest)) ⟨.url, me, i, hv, hd, ks, vs⟩ := by
      simp [scanRequestAux, requestStep, hc]
    rw [step1, ih d hd0 hrest2]
    have h1 : i + 1 + rest2.length + 2 = i + (d :: rest2).length + 2 := by
      simp only [List.length_cons]; omega
    have h2 : i + 1 + rest2.length = i + (d :: rest2).length := by
      simp only [List.length_cons]; omega
    rw [h1, h2]

/-- In state `HttpVersion` a run of non-line-feed bytes is recorded as
content and the following line feed enters the header block. -/
theorem scan_version_cont (c : Nat) (m : List Nat) (hc : c ≠ 10) (hm : ∀ x ∈ m, x ≠ 10) :
    ∀ (rest : List Nat) (i me ur hv hd : Nat) (ks vs : List Nat),
    scanRequestAux i ((c :: m) ++ (10 :: rest)) ⟨.httpVersion, me, ur, hv, hd, ks, vs⟩ =
      scanRequestAux (i + m.length + 2) rest
        ⟨.headers false, me, ur, i + m.length, hd, ks, vs⟩ := by
  induction m generalizing c with
  | nil =>
    intro rest i me ur hv hd ks vs
    simp [scanRequestAux, requestStep, hc]
  | cons d rest2 ih =>
    intro rest i me ur hv hd ks vs
    have hd0 : d ≠ 10 := hm d (List.mem_cons_self d rest2)
    have hrest2 : ∀ x ∈ rest2, x ≠ 10 := fun x hx => hm x (List.mem_cons_of_mem d hx)
    have step1 : scanRequestAux i ((c :: (d :: rest2)) ++ (10 :: rest))
        ⟨.httpVersion, me, ur, hv, hd, ks, vs⟩ =
        scanRequestAux (i + 1) ((d :: rest2) ++ (10 :: rest))
          ⟨.httpVersion, me, ur, i, hd, ks, vs⟩ := by
      simp [scanRequestAux, requestStep, hc]
    rw [step1, ih d hd0 hrest2]
    have h1 : i + 1 + rest2.length + 2 = i + (d :: rest2).length + 2 := by
      simp only [List.length_cons]; omega
    have h2 : i + 1 + rest2.length = i + (d :: rest2).length := by
      simp only [List.length_cons]; omega
    rw [h1, h2]

/-- In state `Headers(false)` a run of ordinary bytes (no carriage return,
line feed or colon) only updates the `header` index to the last byte seen. -/
theorem scan_hfield_cont (c : Nat) (m : List Nat)
    (hc : c ≠ 13 ∧ c ≠ 10 ∧ c ≠ 58) (hm : ∀ x ∈ m, x ≠ 13 ∧ x ≠ 10 ∧ x ≠ 58) :
    ∀ (rest : List Nat) (i me ur hv hd : Nat) (ks vs : List Nat),
    scanRequestAux i ((c :: m) ++ rest) ⟨.headers false, me, ur, hv, hd, ks, vs⟩ =
      scanRequestAux (i + m.length + 1) rest
        ⟨.headers false, me, ur, hv, i + m.length, ks, vs⟩ := by
  induction m generalizing c with
  | nil =>
    intro rest i me ur hv hd ks vs
    simp [scanRequestAux, requestStep, hc.1, hc.2.1, hc.2.2]
  | cons d rest2 ih =>
    intro rest i me ur hv hd ks vs
    have hd0 := hm d (List.mem_cons_self d rest2)
    have hrest2 : ∀ x ∈ rest2, x ≠ 13 ∧ x ≠ 10 ∧ x ≠ 58 :=
      fun x hx => hm x (List.mem_cons_of_mem d hx)
    have step1 : scanRequestAux i ((c :: (d :: rest2)) ++ rest)
        ⟨.headers false, me, ur, hv, hd, ks, vs⟩ =
        scanRequestAux (i + 1) ((d :: rest2) ++ rest)
          ⟨.headers false, me, ur, hv, i, ks, vs⟩ := by
      simp [scanRequestAux, requestStep, hc.1, hc.2.1, hc.2.2]
    rw [step1, ih d hd0 hrest2]
    have h1 : i + 1 + rest2.length + 1 = i + (d :: rest2).length + 1 := by
      simp only [List.length_cons]; omega
    have h2 : i + 1 + rest2.length = i + (d :: rest2).length := by
      simp only [List.length_cons]; omega
    rw [h1, h2]

/-- Scanning one well-formed header line `key ++ ":" ++ value ++ "\n"` from
state `Headers(false)` pushes the key's and the value's last-byte indices and
returns to `Headers(false)` with `header` reset to 0. -/
theorem scan_hline_cont (k w : List Nat) (hk : cleanHdr k) (hw : cleanHdr w) :
    ∀ (rest : List Nat) (i me ur hv hd : Nat) (ks vs : List Nat),
    scanRequestAux i (k ++ (58 :: (w ++ (10 :: rest)))) ⟨.headers false, me, ur, hv, hd, ks, vs⟩ =
      scanRequestAux (i + k.length + w.length + 2) rest
        ⟨.headers false, me, ur, hv, 0,
         ks ++ [i + k.length - 1], vs ++ [i + k.length + w.length]⟩ := by
  obtain ⟨hkne, hkc⟩ := hk
  obtain ⟨hwne, hwc⟩ := hw
  obtain ⟨kc, kr, rfl⟩ := List.exists_cons_of_ne_nil hkne
  obtain ⟨wc, wr, rfl⟩ := List.exists_cons_of_ne_nil hwne
  intro rest i me ur hv hd ks vs
  have hkc0 := hkc kc (List.mem_cons_self kc kr)
  have hkcr : ∀ x ∈ kr, x ≠ 13 ∧ x ≠ 10 ∧ x ≠ 58 := by
    intro x hx
    have := hkc x (List.mem_cons_of_mem kc hx)
    exact ⟨this.2.2, this.2.1, this.1⟩
  have hwc0 := hwc wc (List.mem_cons_self wc wr)
  have hwcr : ∀ x ∈ wr, x ≠ 13 ∧ x ≠ 10 ∧ x ≠ 58 := by
    intro x hx
    have := hwc x (List.mem_cons_of_mem wc hx)
    exact ⟨this.2.2, this.2.1, this.1⟩
  rw [scan_hfield_cont kc kr ⟨hkc0.2.2, hkc0.2.1, hkc0.1⟩ hkcr]
  have step58 : scanRequestAux (i + kr.length + 1) (58 :: ((wc :: wr) ++ (10 :: rest)))
      ⟨.headers false, me, ur, hv, i + kr.length, ks, vs⟩ =
      scanRequestAux (i + kr.length + 2) ((wc :: wr) ++ (10 :: rest))
        ⟨.headers false, me, ur, hv, 0, ks ++ [i + kr.length], vs⟩ := by
    simp [scanRequestAux, requestStep]
  rw [step58, scan_hfield_cont wc wr ⟨hwc0.2.2, hwc0.2.1, hwc0.1⟩ hwcr]
  have step10 : scanRequestAux (i + kr.length + 2 + wr.length + 1) (10 :: rest)
      ⟨.headers false, me, ur, hv, i + kr.length + 2 + wr.length,
       ks ++ [i + kr.length], vs⟩ =
      scanRequestAux (i + kr.length + 2 + wr.length + 2) rest
        ⟨.headers false, me, ur, hv, 0,
         ks ++ [i + kr.length], vs ++ [i + kr.length + 2 + wr.length]⟩ := by
    simp [scanRequestAux, requestStep]
  rw [step10]
  have e3 : i + kr.length + 2 + wr.length = i + (kc :: kr).length + (wc :: wr).length := by
    simp only [List.length_cons]; omega
  have e2 : i + kr.length = i + (kc :: kr).length - 1 := by
    simp only [List.length_cons]; omega
  rw [e3, e2]

/-- Scanning a well-formed header block from state `Headers(false)` with
`header = 0` appends exactly the `hdrIdx` key/value indices. -/
theorem scan_hblock_cont (hs : List (List Nat × List Nat))
    (hhs : ∀ p ∈ hs, cleanHdr p.1 ∧ cleanHdr p.2) :
    ∀ (rest : List Nat) (i me ur hv : Nat) (ks vs : List Nat),
    scanRequestAux i (headerBytes hs ++ rest) ⟨.headers false, me, ur, hv, 0, ks, vs⟩ =
      scanRequestAux (i + (headerBytes hs).length) rest
        ⟨.headers false, me, ur, hv, 0,
         ks ++ (hdrIdx i hs).map Prod.fst, vs ++ (hdrIdx i hs).map Prod.snd⟩ := by
  induction hs with
  | nil =>
    intro rest i me ur hv ks vs
    simp [headerBytes, hdrIdx]
  | cons p tl ih =>
    obtain ⟨k, w⟩ := p
    intro rest i me ur hv ks vs
    have hp := hhs (k, w) (List.mem_cons_self (k, w) tl)
    have htl : ∀ p ∈ tl, cleanHdr p.1 ∧ cleanHdr p.2 :=
      fun p hp2 => hhs p (List.mem_cons_of_mem (k, w) hp2)
    have hassoc : headerBytes ((k, w) :: tl) ++ rest =
        k ++ (58 :: (w ++ (10 :: (headerBytes tl ++ rest)))) := by
      simp [headerBytes]
    rw [hassoc, scan_hline_cont k w hp.1 hp.2, ih htl]
    have e1 : i + k.length + w.length + 2 + (headerBytes tl).length =
        i + (headerBytes ((k, w) :: tl)).length := by
      simp only [headerBytes, List.length_append, List.length_cons]; omega
    rw [e1]
    have e2 : hdrIdx i ((k, w) :: tl) =
        (i + k.length - 1, i + k.length + w.length) ::
          hdrIdx (i + k.length + w.length + 2) tl := rfl
    rw [e2]
    simp [List.append_assoc]

/-- Carving bytes out of a buffer that visibly contains `mid` at offset
`pre.length`: the Rust slice `&data[pre.len..=pre.len + mid.len - 1]` is
defined and equals `mid`. -/
theorem sliceCC_extract (pre mid suf : List Nat) (h : mid ≠ []) :
    sliceCC (pre ++ (mid ++ suf)) pre.length (pre.length + mid.length - 1) = some mid := by
  have hm : 1 ≤ mid.length := List.length_pos.mpr h
  unfold sliceCC
  rw [if_pos]
  · congr 1
    have h1 : pre.length + mid.length - 1 + 1 - pre.length = mid.length := by omega
    rw [h1, List.drop_left, List.take_left]
  · constructor
    · omega
    · simp only [List.length_append]; omega

/-- Carving the tail out of a buffer: `&data[pre.len..]` is defined and
equals the suffix. -/
theorem sliceFrom_extract (pre suf : List Nat) :
    sliceFrom (pre ++ suf) pre.length = some suf := by
  unfold sliceFrom
  rw [if_pos, List.drop_left]
  simp only [List.length_append]; omega

/-- Full scan of a well-formed request buffer: the final accumulator records
the last byte of each start-line field and the `hdrIdx` key/value indices of
the header block, which starts at offset `f1.len + f2.len + f3.len + 3`. -/
theorem scanRequest_build (f1 f2 f3 : List Nat) (hs : List (List Nat × List Nat))
    (body : List Nat) (h : wfMessage f1 f2 f3 hs) :
    scanRequestAux 0 (buildMessage f1 f2 f3 hs body) reqAcc0 =
      .ok ⟨.body, f1.length - 1, f1.length + f2.length,
           f1.length + f2.length + f3.length + 1, 0,
           (hdrIdx (f1.length + f2.length + f3.length + 3) hs).map Prod.fst,
           (hdrIdx (f1.length + f2.length + f3.length + 3) hs).map Prod.snd⟩ := by
  obtain ⟨⟨h1ne, h1c⟩, ⟨h2ne, h2c⟩, ⟨h3ne, h3c⟩, hhs⟩ := h
  obtain ⟨a, f1r, rfl⟩ := List.exists_cons_of_ne_nil h1ne
  obtain ⟨b, f2r, rfl⟩ := List.exists_cons_of_ne_nil h2ne
  obtain ⟨cv, f3r, rfl⟩ := List.exists_cons_of_ne_nil h3ne
  have ha : a ≠ 32 := (h1c a (List.mem_cons_self a f1r)).1
  have hf1r : ∀ x ∈ f1r, x ≠ 32 := fun x hx => (h1c x (List.mem_cons_of_mem a hx)).1
  have hb : b ≠ 32 := (h2c b (List.mem_cons_self b f2r)).1
  have hf2r : ∀ x ∈ f2r, x ≠ 32 := fun x hx => (h2c x (List.mem_cons_of_mem b hx)).1
  have hcv : cv ≠ 10 := (h3c cv (List.mem_cons_self cv f3r)).2.1
  have hf3r : ∀ x ∈ f3r, x ≠ 10 := fun x hx => (h3c x (List.mem_cons_of_mem cv hx)).2.1
  unfold buildMessage reqAcc0
  rw [scan_method_cont a f1r ha hf1r, scan_url_cont b f2r hb hf2r,
    scan_version_cont cv f3r hcv hf3r, scan_hblock_cont hs hhs]
  have stepEnd : ∀ (j : Nat) (me ur hv : Nat) (ks vs : List Nat),
      scanRequestAux j (13 :: (10 :: body)) ⟨.headers false, me, ur, hv, 0, ks, vs⟩ =
        .ok ⟨.body, me, ur, hv, 0, ks, vs⟩ := by
    intro j me ur hv ks vs
    have s13 : scanRequestAux j (13 :: (10 :: body)) ⟨.headers false, me, ur, hv, 0, ks, vs⟩ =
        scanRequestAux (j + 1) (10 :: body) ⟨.headers true, me, ur, hv, 0, ks, vs⟩ := by
      simp [scanRequestAux, requestStep]
    have s10 : scanRequestAux (j + 1) (10 :: body) ⟨.headers true, me, ur, hv, 0, ks, vs⟩ =
        scanRequestAux (j + 2) body ⟨.body, me, ur, hv, 0, ks, vs⟩ := by
      simp [scanRequestAux, requestStep]
    rw [s13, s10, scanRequestAux_body _ _ _ rfl]
  rw [stepEnd]
  have eidx : 0 + f1r.length + 2 + f2r.length + 2 + f3r.length + 2 =
      (a :: f1r).length + (b :: f2r).length + (cv :: f3r).length + 3 := by
    simp only [List.length_cons]; omega
  have eme : 0 + f1r.length = (a :: f1r).length - 1 := by
    simp only [List.length_cons]; omega
  have eur : 0 + f1r.length + 2 + f2r.length = (a :: f1r).length + (b :: f2r).length := by
    simp only [List.length_cons]; omega
  have ehv : 0 + f1r.length + 2 + f2r.length + 2 + f3r.length =
      (a :: f1r).length + (b :: f2r).length + (cv :: f3r).length + 1 := by
    simp only [List.length_cons]; omega
  rw [eidx, ehv, eur, eme]
  simp

/-- The header-extraction loop applied to the `hdrIdx` indices of a
well-formed header block sitting at offset `pre.length` recovers exactly the
header key/value pairs, and leaves `last` at the index of the block's
terminating carriage return. -/
theorem buildHeaders_ok : ∀ (hs : List (List Nat × List Nat)) (pre body2 : List Nat),
    (∀ p ∈ hs, cleanHdr p.1 ∧ cleanHdr p.2) →
    buildHeaders (pre ++ (headerBytes hs ++ (13 :: (10 :: body2)))) pre.length
        (hdrIdx pre.length hs) =
      .ok (hs, pre.length + (headerBytes hs).length) := by
  intro hs
  induction hs with
  | nil =>
    intro pre body2 _
    simp [headerBytes, hdrIdx, buildHeaders]
  | cons p tl ih =>
    obtain ⟨k, w⟩ := p
    intro pre body2 hhs
    have hp := hhs (k, w) (List.mem_cons_self (k, w) tl)
    have hkne := hp.1.1
    have hwne := hp.2.1
    have hk1 : 1 ≤ k.length := List.length_pos.mpr hkne
    have hw1 : 1 ≤ w.length := List.length_pos.mpr hwne
    have htl : ∀ q ∈ tl, cleanHdr q.1 ∧ cleanHdr q.2 :=
      fun q hq => hhs q (List.mem_cons_of_mem (k, w) hq)
    set data := pre ++ (headerBytes ((k, w) :: tl) ++ (13 :: (10 :: body2))) with hdata
    have hkey : sliceCC data pre.length (pre.length + k.length - 1) = some k := by
      have hd1 : data =
          pre ++ (k ++ (58 :: (w ++ (10 :: (headerBytes tl ++ (13 :: (10 :: body2))))))) := by
        rw [hdata]; simp [headerBytes, List.append_assoc]
      rw [hd1]
      exact sliceCC_extract pre k _ hkne
    have hval : sliceCC data (pre.length + k.length - 1 + 2)
        (pre.length + k.length + w.length) = some w := by
      have hp2 : pre.length + k.length - 1 + 2 = (pre ++ (k ++ [58])).length := by
        simp only [List.length_append, List.length_cons, List.length_nil]; omega
      have hb2 : pre.length + k.length + w.length =
          (pre ++ (k ++ [58])).length + w.length - 1 := by
        simp only [List.length_append, List.length_cons, List.length_nil]; omega
      have hd2 : data = (pre ++ (k ++ [58])) ++
          (w ++ (10 :: (headerBytes tl ++ (13 :: (10 :: body2))))) := by
        rw [hdata]; simp [headerBytes, List.append_assoc]
      rw [hp2, hb2, hd2]
      exact sliceCC_extract _ w _ hwne
    have hrec : buildHeaders data (pre.length + k.length + w.length + 2)
        (hdrIdx (pre.length + k.length + w.length + 2) tl) =
        .ok (tl, pre.length + k.length + w.length + 2 + (headerBytes tl).length) := by
      have hlen : pre.length + k.length + w.length + 2 =
          (pre ++ (k ++ (58 :: (w ++ [10])))).length := by
        simp only [List.length_append, List.length_cons, List.length_nil]; omega
      have hd3 : data = (pre ++ (k ++ (58 :: (w ++ [10])))) ++
          (headerBytes tl ++ (13 :: (10 :: body2))) := by
        rw [hdata]; simp [headerBytes, List.append_assoc]
      rw [hlen, hd3]
      exact ih (pre ++ (k ++ (58 :: (w ++ [10])))) body2 htl
    have hstep : hdrIdx pre.length ((k, w) :: tl) =
        (pre.length + k.length - 1, pre.length + k.length + w.length) ::
          hdrIdx (pre.length + k.length + w.length + 2) tl := rfl
    rw [hstep]
    simp only [buildHeaders]
    rw [hkey, hval, hrec]
    have hfin : pre.length + k.length + w.length + 2 + (headerBytes tl).length =
        pre.length + (headerBytes ((k, w) :: tl)).length := by
      simp only [headerBytes, List.length_append, List.length_cons]; omega
    rw [hfin]

/-- Equal-length zip of the projections of a pair list is the list itself. -/
theorem zip_map_fst_snd (l : List (Nat × Nat)) :
    (l.map Prod.fst).zip (l.map Prod.snd) = l := by
  induction l with
  | nil => rfl
  | cons p tl ih => simp [ih]

/-- Parsing a well-formed request buffer succeeds and returns exactly the
fields it was built from (the header mapping being the `HashMap` image
`mkMap hs` of the scanned pairs). -/
theorem parse_request_build (f1 f2 f3 : List Nat) (hs : List (List Nat × List Nat))
    (body : List Nat) (h : wfMessage f1 f2 f3 hs) :
    parse_request (buildMessage f1 f2 f3 hs body) = .ok ⟨f1, f2, f3, mkMap hs, body⟩ := by
  obtain ⟨h1, h2, h3, hhs⟩ := h
  have hl1 : 1 ≤ f1.length := List.length_pos.mpr h1.1
  have hl2 : 1 ≤ f2.length := List.length_pos.mpr h2.1
  have hl3 : 1 ≤ f3.length := List.length_pos.mpr h3.1
  set data := buildMessage f1 f2 f3 hs body with hdata
  have hscan := scanRequest_build f1 f2 f3 hs body ⟨h1, h2, h3, hhs⟩
  rw [← hdata] at hscan
  have hmeth : sliceCC data 0 (f1.length - 1) = some f1 := by
    have hd1 : data = [] ++ (f1 ++ (32 :: (f2 ++ (32 :: (f3 ++
        (10 :: (headerBytes hs ++ (13 :: (10 :: body))))))))) := by
      rw [hdata]; simp [buildMessage]
    have := sliceCC_extract [] f1 (32 :: (f2 ++ (32 :: (f3 ++
        (10 :: (headerBytes hs ++ (13 :: (10 :: body)))))))) h1.1
    simp only [List.length_nil, Nat.zero_add] at this
    rw [hd1]
    exact this
  have hurl : sliceCC data (f1.length - 1 + 2) (f1.length + f2.length) = some f2 := by
    have hp2 : f1.length - 1 + 2 = (f1 ++ [32]).length := by
      simp only [List.length_append, List.length_cons, List.length_nil]; omega
    have hb2 : f1.length + f2.length = (f1 ++ [32]).length + f2.length - 1 := by
      simp only [List.length_append, List.length_cons, List.length_nil]; omega
    have hd2 : data = (f1 ++ [32]) ++ (f2 ++ (32 :: (f3 ++
        (10 :: (headerBytes hs ++ (13 :: (10 :: body))))))) := by
      rw [hdata]; simp [buildMessage, List.append_assoc]
    rw [hp2, hb2, hd2]
    exact sliceCC_extract _ f2 _ h2.1
  have hver : sliceCC data (f1.length + f2.length + 2)
      (f1.length + f2.length + f3.length + 1) = some f3 := by
    have hp3 : f1.length + f2.length + 2 = (f1 ++ (32 :: (f2 ++ [32]))).length := by
      simp only [List.length_append, List.length_cons, List.length_nil]; omega
    have hb3 : f1.length + f2.length + f3.length + 1 =
        (f1 ++ (32 :: (f2 ++ [32]))).length + f3.length - 1 := by
      simp only [List.length_append, List.length_cons, List.length_nil]; omega
    have hd3 : data = (f1 ++ (32 :: (f2 ++ [32]))) ++ (f3 ++
        (10 :: (headerBytes hs ++ (13 :: (10 :: body))))) := by
      rw [hdata]; simp [buildMessage, List.append_assoc]
    rw [hp3, hb3, hd3]
    exact sliceCC_extract _ f3 _ h3.1
  have hhdrs : buildHeaders data (f1.length + f2.length + f3.length + 1 + 2)
      (hdrIdx (f1.length + f2.length + f3.length + 3) hs) =
      .ok (hs, f1.length + f2.length + f3.length + 3 + (headerBytes hs).length) := by
    have hp4 : f1.length + f2.length + f3.length + 1 + 2 =
        (f1 ++ (32 :: (f2 ++ (32 :: (f3 ++ [10]))))).length := by
      simp only [List.length_append, List.length_cons, List.length_nil]; omega
    have hp5 : f1.length + f2.length + f3.length + 3 =
        (f1 ++ (32 :: (f2 ++ (32 :: (f3 ++ [10]))))).length := by
      simp only [List.length_append, List.length_cons, List.length_nil]; omega
    have hd4 : data = (f1 ++ (32 :: (f2 ++ (32 :: (f3 ++ [10]))))) ++
        (headerBytes hs ++ (13 :: (10 :: body))) := by
      rw [hdata]; simp [buildMessage, List.append_assoc]
    rw [hp4]
    rw [hd4]
    exact buildHeaders_ok hs _ body hhs
  have hbody : sliceFrom data
      (f1.length + f2.length + f3.length + 3 + (headerBytes hs).length + 2) = some body := by
    have hp6 : f1.length + f2.length + f3.length + 3 + (headerBytes hs).length + 2 =
        (f1 ++ (32 :: (f2 ++ (32 :: (f3 ++ (10 :: (headerBytes hs ++ [13, 10]))))))).length := by
      simp only [List.length_append, List.length_cons, List.length_nil]; omega
    have hd5 : data = (f1 ++ (32 :: (f2 ++ (32 :: (f3 ++
        (10 :: (headerBytes hs ++ [13, 10]))))))) ++ body := by
      rw [hdata]; simp [buildMessage, List.append_assoc]
    rw [hp6, hd5]
    exact sliceFrom_extract _ body
  unfold parse_request
  rw [hscan]
  simp only [hmeth, hurl, hver, zip_map_fst_snd, hhdrs, hbody]

/-- Once the response scan state is `Body`, the loop breaks. -/
theorem scanResponseAux_body (i : Nat) (l : List Nat) (s : ResponseAcc)
    (h : s.state = .body) : scanResponseAux i l s = .ok s := by
  cases l with
  | nil => rfl
  | cons c rest => simp [scanResponseAux, h]

/-- One response scan step is one request scan step through `trAcc`. -/
theorem requestStep_tr (i c : Nat) (s : ResponseAcc) :
    requestStep i c (trAcc s) = Except.map trAcc (responseStep i c s) := by
  obtain ⟨st, hv, sc, stt, hd, ks, vs⟩ := s
  cases st with
  | httpVersion =>
    by_cases h : c = 32 <;> simp [requestStep, responseStep, trAcc, trState, h, Except.map]
  | statusCode =>
    by_cases h : c = 32 <;> simp [requestStep, responseStep, trAcc, trState, h, Except.map]
  | status =>
    by_cases h : c = 10 <;> simp [requestStep, responseStep, trAcc, trState, h, Except.map]
  | headers b =>
    cases b with
    | true =>
      by_cases h : c = 10 <;> simp [requestStep, responseStep, trAcc, trState, h, Except.map]
    | false =>
      by_cases h13 : c = 13
      · simp [requestStep, responseStep, trAcc, trState, h13, Except.map]
      · by_cases h10 : c = 10
        · simp [requestStep, responseStep, trAcc, trState, h13, h10, Except.map]
        · by_cases h58 : c = 58 <;>
            simp [requestStep, responseStep, trAcc, trState, h13, h10, h58, Except.map]
  | body => simp [requestStep, responseStep, trAcc, trState, Except.map]

/-- The whole response scan is the request scan through `trAcc`. -/
theorem scanAux_tr (l : List Nat) : ∀ (i : Nat) (s : ResponseAcc),
    scanRequestAux i l (trAcc s) = Except.map trAcc (scanResponseAux i l s) := by
  induction l with
  | nil => intro i s; simp [scanRequestAux, scanResponseAux, Except.map]
  | cons c rest ih =>
    intro i s
    by_cases hb : s.state = .body
    · have hb2 : (trAcc s).state = .body := by simp [trAcc, hb, trState]
      rw [scanRequestAux_body _ _ _ hb2, scanResponseAux_body _ _ _ hb]
      simp [Except.map]
    · have hb2 : (trAcc s).state ≠ .body := by
        obtain ⟨st, hv, sc, stt, hd, ks, vs⟩ := s
        cases st <;> simp_all [trAcc, trState]
      have hl : scanRequestAux i (c :: rest) (trAcc s) =
          match requestStep i c (trAcc s) with
          | .error e => .error e
          | .ok s2 => scanRequestAux (i + 1) rest s2 := by
        simp [scanRequestAux, hb2]
      have hr : scanResponseAux i (c :: rest) s =
          match responseStep i c s with
          | .error e => .error e
          | .ok s2 => scanResponseAux (i + 1) rest s2 := by
        simp [scanResponseAux, hb]
      rw [hl, hr, requestStep_tr]
      cases responseStep i c s with
      | error e => simp [Except.map]
      | ok s2 =>
        simp only [Except.map]
        exact ih (i + 1) s2

/-- `parse_response` is `parse_request` with the start-line fields renamed:
the two Rust functions are the same algorithm. -/
theorem parse_response_eq (data : List Nat) :
    parse_response data = Except.map convResponse (parse_request data) := by
  unfold parse_request parse_response
  have h0 : reqAcc0 = trAcc respAcc0 := rfl
  rw [h0, scanAux_tr]
  cases hscan : scanResponseAux 0 data respAcc0 with
  | error e => simp [Except.map]
  | ok s =>
    simp only [Except.map]
    obtain ⟨st, hv, sc, stt, hd, ks, vs⟩ := s
    simp only [trAcc]
    cases h1 : sliceCC data 0 hv with
    | none => simp [Except.map]
    | some a1 =>
      simp only [h1]
      cases h2 : sliceCC data (hv + 2) sc with
      | none => simp [Except.map]
      | some a2 =>
        simp only [h2]
        cases h3 : sliceCC data (sc + 2) stt with
        | none => simp [Except.map]
        | some a3 =>
          simp only [h3]
          cases h4 : buildHeaders data (stt + 2) (ks.zip vs) with
          | error e => simp [h4, Except.map]
          | ok pr =>
            obtain ⟨pairs, last⟩ := pr
            simp only [h4]
            cases h5 : sliceFrom data (last + 2) with
            | none => simp [h5, Except.map]
            | some bd => simp [h5, Except.map, convResponse]

/-- Parsing a well-formed response buffer succeeds and returns exactly the
fields it was built from. -/
theorem parse_response_build (f1 f2 f3 : List Nat) (hs : List (List Nat × List Nat))
    (body : List Nat) (h : wfMessage f1 f2 f3 hs) :
    parse_response (buildMessage f1 f2 f3 hs body) = .ok ⟨f3, f2, f1, mkMap hs, body⟩ := by
  rw [parse_response_eq, parse_request_build f1 f2 f3 hs body h]
  rfl

/-- Folding `insertPair` over pairs whose keys are fresh and mutually
distinct just appends them. -/
theorem foldl_insertPair_nodup : ∀ (hs acc : List (List Nat × List Nat)),
    (∀ p ∈ hs, ∀ q ∈ acc, q.1 ≠ p.1) → (hs.map Prod.fst).Nodup →
    hs.foldl insertPair acc = acc ++ hs := by
  intro hs
  induction hs with
  | nil => intro acc _ _; simp
  | cons p tl ih =>
    intro acc hdisj hnd
    have hfresh : ∀ q ∈ acc, q.1 ≠ p.1 :=
      fun q hq => hdisj p (List.mem_cons_self p tl) q hq
    have hins : insertPair acc p = acc ++ [p] := by
      unfold insertPair eraseKey
      have : acc.filter (fun q => !(decide (q.1 = p.1))) = acc := by
        apply List.filter_eq_self.mpr
        intro q hq
        simp [hfresh q hq]
      rw [this]
    have hnd2 : (tl.map Prod.fst).Nodup := by
      simp only [List.map_cons, List.nodup_cons] at hnd
      exact hnd.2
    have hhead : ∀ r ∈ tl, p.1 ≠ r.1 := by
      intro r hr heq
      simp only [List.map_cons, List.nodup_cons] at hnd
      exact hnd.1 (heq ▸ List.mem_map_of_mem Prod.fst hr)
    have hdisj2 : ∀ r ∈ tl, ∀ q ∈ acc ++ [p], q.1 ≠ r.1 := by
      intro r hr q hq
      rcases List.mem_append.mp hq with hq1 | hq2
      · exact hdisj r (List.mem_cons_of_mem p hr) q hq1
      · have : q = p := List.mem_singleton.mp hq2
        rw [this]
        exact hhead r hr
    calc (p :: tl).foldl insertPair acc = tl.foldl insertPair (insertPair acc p) := rfl
      _ = tl.foldl insertPair (acc ++ [p]) := by rw [hins]
      _ = (acc ++ [p]) ++ tl := ih (acc ++ [p]) hdisj2 hnd2
      _ = acc ++ (p :: tl) := by simp

/-- With pairwise-distinct keys the `HashMap` image is the pair list itself. -/
theorem mkMap_nodup (hs : List (List Nat × List Nat)) (h : (hs.map Prod.fst).Nodup) :
    mkMap hs = hs := by
  unfold mkMap
  rw [foldl_insertPair_nodup hs [] (by intro p _ q hq; cases hq) h]
  simp

/-- Filtering the `HashMap` image for a key: if the key occurs, the map has
exactly the pair with the last inserted value; otherwise the accumulator's
entries survive. -/
theorem foldl_insertPair_filter (k : List Nat) : ∀ (hs acc : List (List Nat × List Nat)),
    (hs.foldl insertPair acc).filter (fun q => decide (q.1 = k)) =
      match findLast hs k with
      | some w => [(k, w)]
      | none => acc.filter (fun q => decide (q.1 = k)) := by
  intro hs
  induction hs with
  | nil => intro acc; simp [findLast]
  | cons p tl ih =>
    intro acc
    have hstep : (p :: tl).foldl insertPair acc = tl.foldl insertPair (insertPair acc p) := rfl
    rw [hstep, ih (insertPair acc p)]
    have hfl : findLast (p :: tl) k =
        match findLast tl k with
        | some w => some w
        | none => if p.1 = k then some p.2 else none := rfl
    rw [hfl]
    cases findLast tl k with
    | some w => rfl
    | none =>
      simp only
      have hins : (insertPair acc p).filter (fun q => decide (q.1 = k)) =
          (acc.filter (fun q => !(decide (q.1 = p.1)))).filter (fun q => decide (q.1 = k)) ++
            [p].filter (fun q => decide (q.1 = k)) := by
        unfold insertPair eraseKey
        rw [List.filter_append]
      rw [hins]
      by_cases hpk : p.1 = k
      · have hera : (acc.filter (fun q => !(decide (q.1 = p.1)))).filter
            (fun q => decide (q.1 = k)) = [] := by
          rw [List.filter_filter]
          apply List.filter_eq_nil_iff.mpr
          intro q _
          by_cases hq : q.1 = k <;> simp [hq, hpk]
        have hone : [p].filter (fun q => decide (q.1 = k)) = [(k, p.2)] := by
          simp [List.filter, hpk]
          exact Prod.ext hpk rfl
        rw [hera, hone, if_pos hpk]
        rfl
      · have hera : (acc.filter (fun q => !(decide (q.1 = p.1)))).filter
            (fun q => decide (q.1 = k)) = acc.filter (fun q => decide (q.1 = k)) := by
          rw [List.filter_filter]
          apply List.filter_congr
          intro q _
          by_cases hq : q.1 = k
          · have h2 : ¬k = p.1 := fun hkp => hpk hkp.symm
            simp [hq, h2]
          · simp [hq]
        have hnone : [p].filter (fun q => decide (q.1 = k)) = [] := by
          simp [List.filter, hpk]
        rw [hera, hnone, if_neg hpk]
        simp

/-- Looking up a key that occurs in the scanned pairs: the `HashMap` image
holds exactly one entry for it, carrying the value of the last occurrence. -/
theorem mkMap_filter (hs : List (List Nat × List Nat)) (k w : List Nat)
    (h : findLast hs k = some w) :
    (mkMap hs).filter (fun q => decide (q.1 = k)) = [(k, w)] := by
  unfold mkMap
  rw [foldl_insertPair_filter k hs [], h]

/-- Every segment range lies between its block's offset and the end of the
flattened block. -/
theorem segRanges_bound : ∀ (l : List (List Nat × List Nat)) (o : Nat),
    ∀ p ∈ segRanges o l, o ≤ p.1 ∧ p.1 + p.2 ≤ o + (segsFlat l).length := by
  intro l
  induction l with
  | nil => intro o p hp; cases hp
  | cons sd rest ih =>
    obtain ⟨s, d⟩ := sd
    intro o p hp
    rcases List.mem_cons.mp hp with hp1 | hp2
    · rw [hp1]
      refine ⟨Nat.le_refl o, ?_⟩
      simp only [segsFlat, List.length_append]
      omega
    · have := ih (o + s.length + d.length) p hp2
      simp only [segsFlat, List.length_append]
      omega

/-- Segment ranges are pairwise disjoint. -/
theorem segRanges_pairwise : ∀ (l : List (List Nat × List Nat)) (o : Nat),
    (segRanges o l).Pairwise rangeDisj := by
  intro l
  induction l with
  | nil => intro o; simp [segRanges]
  | cons sd rest ih =>
    obtain ⟨s, d⟩ := sd
    intro o
    rw [show segRanges o ((s, d) :: rest) =
        (o, s.length) :: segRanges (o + s.length + d.length) rest from rfl]
    rw [List.pairwise_cons]
    refine ⟨?_, ih (o + s.length + d.length)⟩
    intro q hq
    have := (segRanges_bound rest (o + s.length + d.length) q hq).1
    left
    simp only
    omega

/-- Applying each segment range to the buffer recovers exactly the content
segments. -/
theorem segRanges_extract : ∀ (l : List (List Nat × List Nat)) (pre suf : List Nat),
    (segRanges pre.length l).map
        (fun p => ((pre ++ (segsFlat l ++ suf)).drop p.1).take p.2) = l.map Prod.fst := by
  intro l
  induction l with
  | nil => intro pre suf; simp [segRanges]
  | cons sd rest ih =>
    obtain ⟨s, d⟩ := sd
    intro pre suf
    have hhead : ((pre ++ (segsFlat ((s, d) :: rest) ++ suf)).drop pre.length).take s.length
        = s := by
      have h2 : pre ++ (segsFlat ((s, d) :: rest) ++ suf) =
          pre ++ (s ++ ((d ++ segsFlat rest) ++ suf)) := by
        simp [segsFlat, List.append_assoc]
      rw [h2, List.drop_left]
      exact List.take_left _ _
    have hlen : pre.length + s.length + d.length = (pre ++ (s ++ d)).length := by
      simp only [List.length_append]; omega
    have hdata : pre ++ (segsFlat ((s, d) :: rest) ++ suf) =
        (pre ++ (s ++ d)) ++ (segsFlat rest ++ suf) := by
      simp [segsFlat, List.append_assoc]
    rw [show segRanges pre.length ((s, d) :: rest) =
        (pre.length, s.length) :: segRanges (pre.length + s.length + d.length) rest from rfl]
    rw [List.map_cons, hhead, hlen, hdata]
    rw [show ((s, d) :: rest).map Prod.fst = s :: rest.map Prod.fst from rfl]
    congr 1
    exact ih (pre ++ (s ++ d)) suf

/-- Flattening the header segmentation gives back the header block bytes. -/
theorem segsFlat_hdrSegs (hs : List (List Nat × List Nat)) :
    segsFlat (hdrSegs hs) = headerBytes hs := by
  induction hs with
  | nil => rfl
  | cons p rest ih =>
    obtain ⟨k, w⟩ := p
    simp [hdrSegs, segsFlat, headerBytes, ih]

/-- All message ranges are pairwise disjoint. -/
theorem msgRanges_pairwise (segs : List (List Nat × List Nat)) (bl : Nat) :
    (msgRanges segs bl).Pairwise rangeDisj := by
  unfold msgRanges
  rw [List.pairwise_append]
  refine ⟨segRanges_pairwise segs 0, List.pairwise_singleton _ _, ?_⟩
  intro p hp q hq
  have hb := (segRanges_bound segs 0 p hp).2
  rw [List.mem_singleton.mp hq]
  left
  simp only
  omega

/-- All message ranges lie inside the buffer. -/
theorem msgRanges_bound (segs : List (List Nat × List Nat)) (body : List Nat) :
    ∀ p ∈ msgRanges segs body.length,
      p.1 + p.2 ≤ (segsFlat segs ++ (13 :: (10 :: body))).length := by
  intro p hp
  rcases List.mem_append.mp hp with hp1 | hp2
  · have := (segRanges_bound segs 0 p hp1).2
    simp only [List.length_append, List.length_cons]
    omega
  · rw [List.mem_singleton.mp hp2]
    simp only [List.length_append, List.length_cons]
    omega

/-- Reading every message range out of the buffer gives the head slices in
scan order followed by the body. -/
theorem msgRanges_extract (segs : List (List Nat × List Nat)) (body : List Nat) :
    (msgRanges segs body.length).map
        (fun p => ((segsFlat segs ++ (13 :: (10 :: body))).drop p.1).take p.2) =
      segs.map Prod.fst ++ [body] := by
  unfold msgRanges
  rw [List.map_append]
  congr 1
  · have h0 : segsFlat segs ++ (13 :: (10 :: body)) =
        [] ++ (segsFlat segs ++ (13 :: (10 :: body))) := rfl
    have h1 : segRanges 0 segs = segRanges ([] : List Nat).length segs := rfl
    rw [h0, h1]
    exact segRanges_extract segs [] (13 :: (10 :: body))
  · have h2 : segsFlat segs ++ (13 :: (10 :: body)) =
        (segsFlat segs ++ [13, 10]) ++ body := by
      simp
    have h3 : (segsFlat segs).length + 2 = (segsFlat segs ++ [13, 10]).length := by
      simp
    rw [List.map_singleton, h2, h3, List.drop_left, List.take_length]

/-- A built message is its head segmentation flattened, then the blank line,
then the body. -/
theorem buildMessage_segs (f1 f2 f3 : List Nat) (hs : List (List Nat × List Nat))
    (body : List Nat) :
    buildMessage f1 f2 f3 hs body =
      segsFlat ((f1, [32]) :: ((f2, [32]) :: ((f3, [10]) :: hdrSegs hs))) ++
        (13 :: (10 :: body)) := by
  simp [buildMessage, segsFlat, segsFlat_hdrSegs, List.append_assoc]

/-- C2: `parse_request` on the 62-byte example buffer returns method `GET`,
url `/index`, version `HTTP/1.1`, exactly the two headers
`host ↦ test.com`, `Content-Type ↦ text/html`, and body `abc`. -/
theorem c2_request_example :
    parse_request (strBytes "GET /index HTTP/1.1\nhost:test.com\nContent-Type:text/html\n\r\nabc") =
      .ok ⟨strBytes "GET", strBytes "/index", strBytes "HTTP/1.1",
           [(strBytes "host", strBytes "test.com"),
            (strBytes "Content-Type", strBytes "text/html")],
           strBytes "abc"⟩ ∧
    (strBytes "GET /index HTTP/1.1\nhost:test.com\nContent-Type:text/html\n\r\nabc").length = 62 := by
  exact ⟨by decide, by decide⟩

/-- C3: `parse_response` on the example buffer returns version `HTTP/1.1`,
status code `200`, status `OK`, exactly the two headers
`Content-Length ↦ 88`, `Content-Type ↦ text/html`, and body `body123`. -/
theorem c3_response_example :
    parse_response
        (strBytes "HTTP/1.1 200 OK\nContent-Length:88\nContent-Type:text/html\n\r\nbody123") =
      .ok ⟨strBytes "OK", strBytes "200", strBytes "HTTP/1.1",
           [(strBytes "Content-Length", strBytes "88"),
            (strBytes "Content-Type", strBytes "text/html")],
           strBytes "body123"⟩ := by
  decide

/-- C7: there are truncated buffers on which the parsers hit an
out-of-range slice index and abort (modelled as `error .outOfBounds`)
instead of returning a parsed result: the empty buffer, and a message whose
header block is never closed by the `"\r\n"` blank line. -/
theorem c7_truncated_out_of_bounds :
    parse_request [] = .error .outOfBounds ∧
    parse_response [] = .error .outOfBounds ∧
    parse_request (strBytes "GET / HTTP/1.1\nhost:a\n") = .error .outOfBounds ∧
    parse_response (strBytes "HTTP/1.1 200 OK\nA:b\n") = .error .outOfBounds := by
  exact ⟨by decide, by decide, by decide, by decide⟩

/-- C9: in state `Headers(false)`, a carriage return anywhere — whatever
key/value indices are currently open — only flips the state to the
terminator state `Headers(true)`, closing nothing; consequently a header
line ended by `"\r\n"` terminates the whole header block and contributes no
header: on `"GET / HTTP/1.1\nkey:value\r\nrest"` the scan pushes a key index
but no value index, and the zipped header mapping is empty. -/
theorem c9_cr_midline_terminates :
    (∀ (i me ur hv hd : Nat) (ks vs : List Nat),
      requestStep i 13 ⟨.headers false, me, ur, hv, hd, ks, vs⟩ =
        .ok ⟨.headers true, me, ur, hv, hd, ks, vs⟩) ∧
    (∀ (i hv sc stt hd : Nat) (ks vs : List Nat),
      responseStep i 13 ⟨.headers false, hv, sc, stt, hd, ks, vs⟩ =
        .ok ⟨.headers true, hv, sc, stt, hd, ks, vs⟩) ∧
    scanRequestAux 0 (strBytes "GET / HTTP/1.1\nkey:value\r\nrest") reqAcc0 =
      .ok ⟨.body, 2, 4, 13, 23, [17], []⟩ ∧
    parse_request (strBytes "GET / HTTP/1.1\nkey:value\r\nrest") =
      .ok ⟨strBytes "GET", strBytes "/", strBytes "HTTP/1.1", [],
           strBytes "y:value\r\nrest"⟩ := by
  refine ⟨?_, ?_, by decide, by decide⟩
  · intro i me ur hv hd ks vs
    simp [requestStep]
  · intro i hv sc stt hd ks vs
    simp [responseStep]

/-- C1 counterexample: on the well-formed buffer
`"A B C\nk:1\nk:2\n\r\n"` — two header lines with the byte-identical key
`k` — the parse succeeds but the returned header mapping keeps only the
last `k` entry, so concatenating the returned slices in scan order with
their delimiters does not reproduce the buffer: the claim as stated fails
for well-formed inputs with duplicate header keys. -/
theorem c1_dup_key_counterexample :
    wfMessage [65] [66] [67] [([107], [49]), ([107], [50])] ∧
    parse_request (buildMessage [65] [66] [67] [([107], [49]), ([107], [50])] []) =
      .ok ⟨[65], [66], [67], [([107], [50])], []⟩ ∧
    segsFlat (reqSegs ⟨[65], [66], [67], [([107], [50])], []⟩) ++ (13 :: (10 :: [])) ≠
      buildMessage [65] [66] [67] [([107], [49]), ([107], [50])] [] ∧
    parse_response (buildMessage [65] [66] [67] [([107], [49]), ([107], [50])] []) =
      .ok ⟨[67], [66], [65], [([107], [50])], []⟩ ∧
    segsFlat (respSegs ⟨[67], [66], [65], [([107], [50])], []⟩) ++ (13 :: (10 :: [])) ≠
      buildMessage [65] [66] [67] [([107], [49]), ([107], [50])] [] := by
  exact ⟨by decide, by decide, by decide, by decide, by decide⟩

/-- C1 (amended: header keys pairwise distinct): for every well-formed
buffer whose header keys are pairwise distinct, both parsers succeed and
the returned slices — method/url/version (resp. version/code/status), every
header key and value, and the body — occupy pairwise disjoint in-bounds
ranges of the buffer, those ranges read back as exactly the returned
slices, and concatenating the slices in scan order with their separating
delimiter bytes reproduces the buffer exactly. -/
theorem c1_slices_disjoint_reconstruct (f1 f2 f3 : List Nat)
    (hs : List (List Nat × List Nat)) (body : List Nat)
    (h : wfMessage f1 f2 f3 hs) (hnd : (hs.map Prod.fst).Nodup) :
    (∃ r : Request, parse_request (buildMessage f1 f2 f3 hs body) = .ok r ∧
      disjointReconstruct (buildMessage f1 f2 f3 hs body) (reqSegs r) r.body) ∧
    (∃ r : Response, parse_response (buildMessage f1 f2 f3 hs body) = .ok r ∧
      disjointReconstruct (buildMessage f1 f2 f3 hs body) (respSegs r) r.body) := by
  have hb := buildMessage_segs f1 f2 f3 hs body
  constructor
  · refine ⟨⟨f1, f2, f3, hs, body⟩, ?_, ?_, ?_, ?_, ?_⟩
    · have := parse_request_build f1 f2 f3 hs body h
      rw [mkMap_nodup hs hnd] at this
      exact this
    · exact msgRanges_pairwise _ _
    · intro p hp
      rw [hb]
      exact msgRanges_bound ((f1, [32]) :: ((f2, [32]) :: ((f3, [10]) :: hdrSegs hs))) body p hp
    · rw [hb]
      exact msgRanges_extract _ body
    · rw [hb]
      rfl
  · refine ⟨⟨f3, f2, f1, hs, body⟩, ?_, ?_, ?_, ?_, ?_⟩
    · have := parse_response_build f1 f2 f3 hs body h
      rw [mkMap_nodup hs hnd] at this
      exact this
    · exact msgRanges_pairwise _ _
    · intro p hp
      rw [hb]
      exact msgRanges_bound ((f1, [32]) :: ((f2, [32]) :: ((f3, [10]) :: hdrSegs hs))) body p hp
    · rw [hb]
      exact msgRanges_extract _ body
    · rw [hb]
      rfl

theorem c1_witness :
    wfMessage [71] [47] [72] [([104], [97])] ∧
    (([([104], [97])].map Prod.fst).Nodup) ∧
    ((∃ r : Request, parse_request (buildMessage [71] [47] [72] [([104], [97])] [120]) = .ok r ∧
        disjointReconstruct (buildMessage [71] [47] [72] [([104], [97])] [120]) (reqSegs r) r.body) ∧
     (∃ r : Response, parse_response (buildMessage [71] [47] [72] [([104], [97])] [120]) = .ok r ∧
        disjointReconstruct (buildMessage [71] [47] [72] [([104], [97])] [120]) (respSegs r) r.body)) :=
  ⟨by decide, by decide,
   c1_slices_disjoint_reconstruct [71] [47] [72] [([104], [97])] [120] (by decide) (by decide)⟩

/-- C4: for every well-formed input, with `hdrEnd` the recorded boundary of
the header block (the final value of the extraction loop's `last` variable,
which indexes the blank line's carriage return), the two bytes at `hdrEnd`
are `"\r\n"` and the body slice is exactly the buffer from `hdrEnd + 2` to
its end — `body_start = hdrEnd + 2` — for `parse_request` and
`parse_response` alike. -/
theorem c4_body_two_past_boundary (f1 f2 f3 : List Nat)
    (hs : List (List Nat × List Nat)) (body : List Nat) (h : wfMessage f1 f2 f3 hs) :
    (∃ r : Request, parse_request (buildMessage f1 f2 f3 hs body) = .ok r ∧
      r.body = body ∧
      (buildMessage f1 f2 f3 hs body).drop
          (f1.length + f2.length + f3.length + 3 + (headerBytes hs).length) =
        13 :: (10 :: r.body) ∧
      r.body = (buildMessage f1 f2 f3 hs body).drop
          (f1.length + f2.length + f3.length + 3 + (headerBytes hs).length + 2)) ∧
    (∃ r : Response, parse_response (buildMessage f1 f2 f3 hs body) = .ok r ∧
      r.body = body ∧
      (buildMessage f1 f2 f3 hs body).drop
          (f1.length + f2.length + f3.length + 3 + (headerBytes hs).length) =
        13 :: (10 :: r.body) ∧
      r.body = (buildMessage f1 f2 f3 hs body).drop
          (f1.length + f2.length + f3.length + 3 + (headerBytes hs).length + 2)) := by
  have hP : buildMessage f1 f2 f3 hs body =
      (f1 ++ (32 :: (f2 ++ (32 :: (f3 ++ (10 :: headerBytes hs)))))) ++
        (13 :: (10 :: body)) := by
    simp [buildMessage, List.append_assoc]
  have hPlen : f1.length + f2.length + f3.length + 3 + (headerBytes hs).length =
      (f1 ++ (32 :: (f2 ++ (32 :: (f3 ++ (10 :: headerBytes hs)))))).length := by
    simp only [List.length_append, List.length_cons]; omega
  have hdropP : (buildMessage f1 f2 f3 hs body).drop
      (f1.length + f2.length + f3.length + 3 + (headerBytes hs).length) =
      13 :: (10 :: body) := by
    rw [hP, hPlen, List.drop_left]
  have hQ : buildMessage f1 f2 f3 hs body =
      (f1 ++ (32 :: (f2 ++ (32 :: (f3 ++ (10 :: (headerBytes hs ++ [13, 10]))))))) ++ body := by
    simp [buildMessage, List.append_assoc]
  have hQlen : f1.length + f2.length + f3.length + 3 + (headerBytes hs).length + 2 =
      (f1 ++ (32 :: (f2 ++ (32 :: (f3 ++ (10 :: (headerBytes hs ++ [13, 10]))))))).length := by
    simp only [List.length_append, List.length_cons, List.length_nil]; omega
  have hdropQ : (buildMessage f1 f2 f3 hs body).drop
      (f1.length + f2.length + f3.length + 3 + (headerBytes hs).length + 2) = body := by
    rw [hQ, hQlen, List.drop_left]
  constructor
  · exact ⟨⟨f1, f2, f3, mkMap hs, body⟩, parse_request_build f1 f2 f3 hs body h, rfl,
      hdropP, hdropQ.symm⟩
  · exact ⟨⟨f3, f2, f1, mkMap hs, body⟩, parse_response_build f1 f2 f3 hs body h, rfl,
      hdropP, hdropQ.symm⟩

theorem c4_witness :
    wfMessage [71] [47] [72] [([104], [97])] ∧
    ((∃ r : Request, parse_request (buildMessage [71] [47] [72] [([104], [97])] [120]) = .ok r ∧
        r.body = [120] ∧
        (buildMessage [71] [47] [72] [([104], [97])] [120]).drop
            ([71].length + [47].length + [72].length + 3 +
              (headerBytes [([104], [97])]).length) = 13 :: (10 :: r.body) ∧
        r.body = (buildMessage [71] [47] [72] [([104], [97])] [120]).drop
            ([71].length + [47].length + [72].length + 3 +
              (headerBytes [([104], [97])]).length + 2)) ∧
     (∃ r : Response, parse_response (buildMessage [71] [47] [72] [([104], [97])] [120]) = .ok r ∧
        r.body = [120] ∧
        (buildMessage [71] [47] [72] [([104], [97])] [120]).drop
            ([71].length + [47].length + [72].length + 3 +
              (headerBytes [([104], [97])]).length) = 13 :: (10 :: r.body) ∧
        r.body = (buildMessage [71] [47] [72] [([104], [97])] [120]).drop
            ([71].length + [47].length + [72].length + 3 +
              (headerBytes [([104], [97])]).length + 2))) :=
  ⟨by decide, c4_body_two_past_boundary [71] [47] [72] [([104], [97])] [120] (by decide)⟩

/-- C5: for every well-formed input whose header block repeats a key, the
returned mapping holds exactly one entry for that key and its value is the
last-scanned occurrence's value (`findLast`); earlier occurrences' values do
not appear under that key.  Holds for both parsers. -/
theorem c5_last_duplicate_wins (f1 f2 f3 : List Nat) (hs : List (List Nat × List Nat))
    (body k w : List Nat) (h : wfMessage f1 f2 f3 hs)
    (_hdup : 2 ≤ hs.countP (fun p => decide (p.1 = k)))
    (hlast : findLast hs k = some w) :
    (∃ r : Request, parse_request (buildMessage f1 f2 f3 hs body) = .ok r ∧
      r.headers.filter (fun q => decide (q.1 = k)) = [(k, w)]) ∧
    (∃ r : Response, parse_response (buildMessage f1 f2 f3 hs body) = .ok r ∧
      r.headers.filter (fun q => decide (q.1 = k)) = [(k, w)]) := by
  constructor
  · exact ⟨⟨f1, f2, f3, mkMap hs, body⟩, parse_request_build f1 f2 f3 hs body h,
      mkMap_filter hs k w hlast⟩
  · exact ⟨⟨f3, f2, f1, mkMap hs, body⟩, parse_response_build f1 f2 f3 hs body h,
      mkMap_filter hs k w hlast⟩

theorem c5_witness :
    wfMessage [71] [47] [72] [([107], [49]), ([107], [50])] ∧
    2 ≤ ([([107], [49]), ([107], [50])].countP (fun p => decide (p.1 = [107]))) ∧
    findLast [([107], [49]), ([107], [50])] [107] = some [50] ∧
    ((∃ r : Request,
        parse_request (buildMessage [71] [47] [72] [([107], [49]), ([107], [50])] []) = .ok r ∧
        r.headers.filter (fun q => decide (q.1 = [107])) = [([107], [50])]) ∧
     (∃ r : Response,
        parse_response (buildMessage [71] [47] [72] [([107], [49]), ([107], [50])] []) = .ok r ∧
        r.headers.filter (fun q => decide (q.1 = [107])) = [([107], [50])])) :=
  ⟨by decide, by decide, by decide,
   c5_last_duplicate_wins [71] [47] [72] [([107], [49]), ([107], [50])] [] [107] [50]
     (by decide) (by decide) (by decide)⟩

/-- C6: whenever the header-block scanner of either parser has reached the
terminator state (`is_end = true`, a carriage return was seen) and the next
byte is anything but a line feed, the parse aborts with the
`panic!("invalid state")` of the Rust code (modelled as
`error .invalidState`) and returns no result. -/
theorem c6_terminator_abort :
    (∀ (pre rest : List Nat) (c : Nat) (s : RequestAcc),
      scanRequestAux 0 pre reqAcc0 = .ok s → s.state = .headers true → c ≠ 10 →
      parse_request (pre ++ (c :: rest)) = .error .invalidState) ∧
    (∀ (pre rest : List Nat) (c : Nat) (s : ResponseAcc),
      scanResponseAux 0 pre respAcc0 = .ok s → s.state = .headers true → c ≠ 10 →
      parse_response (pre ++ (c :: rest)) = .error .invalidState) := by
  have hreq : ∀ (pre rest : List Nat) (c : Nat) (s : RequestAcc),
      scanRequestAux 0 pre reqAcc0 = .ok s → s.state = .headers true → c ≠ 10 →
      parse_request (pre ++ (c :: rest)) = .error .invalidState := by
    intro pre rest c s hscan hstate hc
    have hnb : ¬(s.state = RequestParseState.body) := by
      rw [hstate]
      intro hcontra
      cases hcontra
    have hstep : requestStep pre.length c s = .error .invalidState := by
      simp [requestStep, hstate, hc]
    have hscanAll : scanRequestAux 0 (pre ++ (c :: rest)) reqAcc0 = .error .invalidState := by
      rw [scanRequestAux_append pre (c :: rest) 0 reqAcc0, hscan]
      simp [scanRequestAux, hnb, hstep]
    unfold parse_request
    rw [hscanAll]
  constructor
  · exact hreq
  · intro pre rest c s hscan hstate hc
    have htr : scanRequestAux 0 pre reqAcc0 = .ok (trAcc s) := by
      have h0 : reqAcc0 = trAcc respAcc0 := rfl
      rw [h0, scanAux_tr, hscan]
      rfl
    have hst2 : (trAcc s).state = .headers true := by
      simp [trAcc, hstate, trState]
    have hmain := hreq pre rest c (trAcc s) htr hst2 hc
    rw [parse_response_eq, hmain]
    rfl

theorem c6_witness :
    parse_request ([65, 32, 66, 32, 67, 10, 13] ++ (65 :: [])) = .error .invalidState ∧
    parse_response ([65, 32, 66, 32, 67, 10, 13] ++ (65 :: [])) = .error .invalidState := by
  constructor
  · exact c6_terminator_abort.1 [65, 32, 66, 32, 67, 10, 13] [] 65
      ⟨.headers true, 0, 2, 4, 0, [], []⟩ (by decide) (by decide) (by decide)
  · exact c6_terminator_abort.2 [65, 32, 66, 32, 67, 10, 13] [] 65
      ⟨.headers true, 0, 2, 4, 0, [], []⟩ (by decide) (by decide) (by decide)

/-- C8: `"GET / HTTP/1.1\n\r\n"` parses to an empty header mapping and an
empty body, and in general a well-formed message whose header block is
immediately followed by the end of the buffer parses successfully with a
zero-length body slice, for both parsers. -/
theorem c8_empty_headers_empty_body (f1 f2 f3 : List Nat)
    (hs : List (List Nat × List Nat)) (h : wfMessage f1 f2 f3 hs) :
    parse_request (strBytes "GET / HTTP/1.1\n\r\n") =
      .ok ⟨strBytes "GET", strBytes "/", strBytes "HTTP/1.1", [], []⟩ ∧
    (∃ r : Request, parse_request (buildMessage f1 f2 f3 hs []) = .ok r ∧ r.body = []) ∧
    (∃ r : Response, parse_response (buildMessage f1 f2 f3 hs []) = .ok r ∧ r.body = []) := by
  refine ⟨by decide, ?_, ?_⟩
  · exact ⟨⟨f1, f2, f3, mkMap hs, []⟩, parse_request_build f1 f2 f3 hs [] h, rfl⟩
  · exact ⟨⟨f3, f2, f1, mkMap hs, []⟩, parse_response_build f1 f2 f3 hs [] h, rfl⟩

theorem c8_witness :
    wfMessage [71] [47] [72] [([104], [97])] ∧
    (parse_request (strBytes "GET / HTTP/1.1\n\r\n") =
      .ok ⟨strBytes "GET", strBytes "/", strBytes "HTTP/1.1", [], []⟩ ∧
     (∃ r : Request,
        parse_request (buildMessage [71] [47] [72] [([104], [97])] []) = .ok r ∧ r.body = []) ∧
     (∃ r : Response,
        parse_response (buildMessage [71] [47] [72] [([104], [97])] []) = .ok r ∧ r.body = [])) :=
  ⟨by decide, c8_empty_headers_empty_body [71] [47] [72] [([104], [97])] (by decide)⟩

/-- C10: inside the header block a space byte is ordinary content, and a
value slice starts at the byte right after the colon: a well-formed header
line with value `' ' :: w` yields the mapping entry `(k, ' ' :: w)` with the
leading space kept, and a key containing a space is kept verbatim.  Holds
for both parsers. -/
theorem c10_spaces_are_content (f1 f2 f3 body k w k1 k2 w2 : List Nat)
    (h1 : wfMessage f1 f2 f3 [(k, 32 :: w)])
    (h2 : wfMessage f1 f2 f3 [(k1 ++ (32 :: k2), w2)]) :
    (∃ r : Request, parse_request (buildMessage f1 f2 f3 [(k, 32 :: w)] body) = .ok r ∧
      r.headers = [(k, 32 :: w)]) ∧
    (∃ r : Response, parse_response (buildMessage f1 f2 f3 [(k, 32 :: w)] body) = .ok r ∧
      r.headers = [(k, 32 :: w)]) ∧
    (∃ r : Request, parse_request (buildMessage f1 f2 f3 [(k1 ++ (32 :: k2), w2)] body) = .ok r ∧
      r.headers = [(k1 ++ (32 :: k2), w2)]) := by
  refine ⟨?_, ?_, ?_⟩
  · exact ⟨⟨f1, f2, f3, mkMap [(k, 32 :: w)], body⟩,
      parse_request_build f1 f2 f3 [(k, 32 :: w)] body h1, rfl⟩
  · exact ⟨⟨f3, f2, f1, mkMap [(k, 32 :: w)], body⟩,
      parse_response_build f1 f2 f3 [(k, 32 :: w)] body h1, rfl⟩
  · exact ⟨⟨f1, f2, f3, mkMap [(k1 ++ (32 :: k2), w2)], body⟩,
      parse_request_build f1 f2 f3 [(k1 ++ (32 :: k2), w2)] body h2, rfl⟩

theorem c10_witness :
    wfMessage [71] [47] [72] [([107], 32 :: [118])] ∧
    wfMessage [71] [47] [72] [([97] ++ (32 :: [98]), [99])] ∧
    ((∃ r : Request,
        parse_request (buildMessage [71] [47] [72] [([107], 32 :: [118])] []) = .ok r ∧
        r.headers = [([107], 32 :: [118])]) ∧
     (∃ r : Response,
        parse_response (buildMessage [71] [47] [72] [([107], 32 :: [118])] []) = .ok r ∧
        r.headers = [([107], 32 :: [118])]) ∧
     (∃ r : Request,
        parse_request (buildMessage [71] [47] [72] [([97] ++ (32 :: [98]), [99])] []) = .ok r ∧
        r.headers = [([97] ++ (32 :: [98]), [99])])) :=
  ⟨by decide, by decide,
   c10_spaces_are_content [71] [47] [72] [] [107] [118] [97] [98] [99] (by decide) (by decide)⟩
